import Mathlib

/-!
Shallow embedding of the `fancytable` crate (src/style/border.rs, src/cell.rs,
src/table.rs).  Rust `Vec` becomes `List`, `usize` becomes `Nat` (with checked
subtraction: an operation that would underflow, i.e. panic in a debug build,
returns `none`), fallible indexing returns `Option`, and methods that mutate
`&mut self` become functions returning the updated value.
-/

namespace Fancytable

/-! ## src/style/border.rs -/

/-- Rust enum `BorderStyle`: the thickness of a border row/column.
`#[default]` is `Single`. -/
inductive BorderStyle where
  | Single
  | Double
deriving DecidableEq

/-- Rust `BorderStyle::default()`. -/
def BorderStyle.default : BorderStyle := BorderStyle.Single

/-- Rust enum `BorderLineStyle`, `#[repr(u8)]` with discriminants
Solid = 0, Dashed = 1, Dotted = 2, None = 3; `#[default]` is `Solid`. -/
inductive BorderLineStyle where
  | Solid
  | Dashed
  | Dotted
  | None
deriving DecidableEq

/-- The `u8` discriminant of a `BorderLineStyle`, which drives the derived
`Ord`/`PartialOrd` instances in the Rust source. -/
def BorderLineStyle.toNat : BorderLineStyle → Nat
  | .Solid => 0
  | .Dashed => 1
  | .Dotted => 2
  | .None => 3

/-- Rust `Ord::max` on `BorderLineStyle` (derived from the discriminant
order): `a.max(b)` returns `b` when `a <= b` and `a` otherwise. -/
def BorderLineStyle.max (a b : BorderLineStyle) : BorderLineStyle :=
  if a.toNat ≤ b.toNat then b else a

/-- Rust struct `CellBorderStyle`: the line styles for a single cell. -/
structure CellBorderStyle where
  top : BorderLineStyle
  left : BorderLineStyle
  right : BorderLineStyle
  bottom : BorderLineStyle
deriving DecidableEq

/-- Rust `CellBorderStyle::default()` (all fields `BorderLineStyle::Solid`). -/
def CellBorderStyle.default : CellBorderStyle :=
  ⟨.Solid, .Solid, .Solid, .Solid⟩

/-- Rust `get_horizontal_symbol` (match arms in source order). -/
def get_horizontal_symbol (line : BorderLineStyle) (style : BorderStyle) : String :=
  match line, style with
  | .Solid, .Single => "─"
  | .Dashed, .Single => "╴"
  | .Dotted, .Single => "┄"
  | .None, _ => " "
  | _, .Double => "═"

/-- Rust `get_vertical_symbol` (match arms in source order). -/
def get_vertical_symbol (line : BorderLineStyle) (style : BorderStyle) : String :=
  match line, style with
  | .Solid, .Single => "│"
  | .Dashed, .Single => "╵"
  | .Dotted, .Single => "┆"
  | .None, _ => " "
  | _, .Double => "║"

/-- Rust `style_based_selection`: picks among the four weight variants of a
junction glyph by the pair `(hor_style, vert_style)`. -/
def style_based_selection (hor_style vert_style : BorderStyle)
    (ss ds sd dd : String) : String :=
  match hor_style, vert_style with
  | .Single, .Single => ss
  | .Double, .Single => ds
  | .Single, .Double => sd
  | .Double, .Double => dd

/-- Rust `get_center_symbol`: the 16-way junction-shape selection, each
dual-axis shape refined by `style_based_selection`. -/
def get_center_symbol (top left right bottom : Bool)
    (hor_style vert_style : BorderStyle) : String :=
  match top, left, right, bottom with
  | false, false, false, false => " "
  | true, true, true, true => style_based_selection hor_style vert_style "┼" "╪" "╫" "╬"
  | false, true, true, true => style_based_selection hor_style vert_style "┬" "╤" "╥" "╦"
  | true, true, true, false => style_based_selection hor_style vert_style "┴" "╧" "╨" "╩"
  | true, false, true, true => style_based_selection hor_style vert_style "├" "╞" "╨" "╟"
  | true, true, false, true => style_based_selection hor_style vert_style "┤" "╡" "╢" "╣"
  | false, true, true, false => if hor_style = BorderStyle.Single then "─" else "═"
  | true, false, false, true => if vert_style = BorderStyle.Single then "│" else "║"
  | false, false, true, true => style_based_selection hor_style vert_style "┌" "╒" "╓" "╔"
  | false, true, false, true => style_based_selection hor_style vert_style "┐" "╕" "╖" "╗"
  | true, false, true, false => style_based_selection hor_style vert_style "└" "╘" "╙" "╚"
  | true, true, false, false => style_based_selection hor_style vert_style "┘" "╛" "╜" "╝"
  | true, false, false, false => if vert_style = BorderStyle.Single then "╵" else "║"
  | false, true, false, false => if hor_style = BorderStyle.Single then "╴" else "═"
  | false, false, true, false => if hor_style = BorderStyle.Single then "╶" else "═"
  | false, false, false, true => if vert_style = BorderStyle.Single then "╷" else "║"

/-! ## src/style/mod.rs -/

/-- Rust enum `VerticalAlignment`; `#[default]` is `Top`. -/
inductive VerticalAlignment where
  | Top
  | Center
  | Bottom
deriving DecidableEq

/-- Rust `std::fmt::Alignment` (used for `horizontal_alignment`). -/
inductive Alignment where
  | Left
  | Center
  | Right
deriving DecidableEq

/-- Rust enum `ColumnWidth`; `#[default]` is `Dynamic`. -/
inductive ColumnWidth where
  | Dynamic
  | Fixed (w : Nat)
deriving DecidableEq

/-- Rust `ansi_term::Style`, an opaque presentation attribute never
interpreted by the layout engine; modelled as a token. -/
inductive Style where
  | mk
deriving DecidableEq

/-! ## src/cell.rs -/

/-- Strips one trailing carriage return, as `str::lines` does for a line that
was terminated by a line feed. -/
def stripCr (l : List Char) : List Char :=
  match l.getLast? with
  | some c => if c = '\r' then l.dropLast else l
  | _ => l

/-- Rust `str::lines` on the character list of the string: lines are
delimited by a line feed (with a directly preceding carriage return
stripped), the final line ending is optional, and the empty string yields no
lines.  The first argument is the remaining input, the second the reversed
current line. -/
def linesAux : List Char → List Char → List (List Char)
  | [], cur => if cur.isEmpty then [] else [cur.reverse]
  | c :: rest, cur =>
    if c = '\n' then stripCr cur.reverse :: linesAux rest []
    else linesAux rest (c :: cur)

/-- Rust `multiline_from_string`: splits the input into separate lines
(`s.lines().map(String::from).collect()`). -/
def multiline_from_string (s : String) : List String :=
  (linesAux s.data []).map String.mk

/-- Rust struct `FancyCell`. -/
structure FancyCell where
  content : List String
  border_style : CellBorderStyle
  padding : Nat
  horizontal_alignment : Alignment
  vertical_alignment : VerticalAlignment
  style : Style
deriving DecidableEq

/-- Rust `FancyCell::default()`: one line `" "`, default border style,
padding 1, left/top alignment. -/
def FancyCell.default : FancyCell :=
  { content := [" "]
    border_style := CellBorderStyle.default
    padding := 1
    horizontal_alignment := Alignment.Left
    vertical_alignment := VerticalAlignment.Top
    style := Style.mk }

/-- Rust `FancyCell::new`. -/
def FancyCell.new (content : String) : FancyCell :=
  { FancyCell.default with content := multiline_from_string content }

/-- Rust `FancyCell::set_content`. -/
def FancyCell.set_content (c : FancyCell) (content : String) : FancyCell :=
  { c with content := multiline_from_string content }

/-- Modelled from the spec: the word splitter underlying the external
`textwrap` crate (absent from the repository), producing the maximal
whitespace-free words of a line in order.  First argument is the remaining
input, second the reversed current word. -/
def splitWords : List Char → List Char → List String
  | [], cur => if cur.isEmpty then [] else [String.mk cur.reverse]
  | c :: rest, cur =>
    if c = ' ' then
      if cur.isEmpty then splitWords rest []
      else String.mk cur.reverse :: splitWords rest []
    else splitWords rest (c :: cur)

/-- Modelled from the spec: `textwrap::wrap`, the external wrapping routine
called by `FancyCell::get_lines_with_fixed_width` and absent from the
repository.  Greedy wrap that breaks only at whitespace, never splits a
word, puts a word longer than the target width on its own overflowing line,
and wraps an empty line to one empty line. -/
def textwrap_wrap (line : String) (width : Nat) : List String :=
  match splitWords line.data [] with
  | [] => [""]
  | w :: ws =>
    let step := fun (acc : List String × String) (word : String) =>
      if acc.2.length + 1 + word.length ≤ width then
        (acc.1, acc.2 ++ " " ++ word)
      else
        (acc.1 ++ [acc.2], word)
    let folded := ws.foldl step ([], w)
    folded.1 ++ [folded.2]

/-- Rust `FancyCell::get_lines_with_fixed_width`: wraps every content line at
the fixed width and concatenates the results in order. -/
def FancyCell.get_lines_with_fixed_width (c : FancyCell) (width : Nat) : List String :=
  (c.content.map (fun line => textwrap_wrap line width)).flatten

/-- Rust `FancyCell::get_height`. -/
def FancyCell.get_height (c : FancyCell) (dynamic_width : ColumnWidth) : Nat :=
  match dynamic_width with
  | .Dynamic => c.content.length
  | .Fixed w => (c.get_lines_with_fixed_width w).length

/-- A string of `n` spaces, as produced by the Rust format specifier
`{empty:width$}` with `width = n`. -/
def spaces (n : Nat) : String := String.mk (List.replicate n ' ')

/-- Rust `FancyCell::get_line`: the padded display line at an index, `none`
when the index is past the line count for the given width mode.  Padding is
the cell's own under `Dynamic` and exactly 1 under `Fixed`. -/
def FancyCell.get_line (c : FancyCell) (line : Nat) (width : ColumnWidth) :
    Option String := do
  let text ←
    match width with
    | .Dynamic => c.content[line]?
    | .Fixed w => (c.get_lines_with_fixed_width w)[line]?
  let padding :=
    match width with
    | .Dynamic => c.padding
    | .Fixed _ => 1
  pure (spaces padding ++ text ++ spaces padding)

/-- Modelled from the spec: the composition of
`strip_ansi_escapes::strip_str` and `UnicodeWidthStr::width` used by the
`Dynamic` branch of `FancyCell::get_width` — both external crates absent
from the repository.  Modelled as the character count (no claim under
verification depends on escape stripping or east-asian widths). -/
def stripped_display_width (s : String) : Nat := s.length

/-- Rust `FancyCell::get_width`: exactly `w + 2` under `Fixed w`; under
`Dynamic`, the maximum stripped display width over the padded lines
(`max().unwrap_or(0)`). -/
def FancyCell.get_width (c : FancyCell) (dynamic_width : ColumnWidth) : Nat :=
  match dynamic_width with
  | .Fixed w => w + 2
  | .Dynamic =>
    ((List.range c.content.length).map
      (fun i => stripped_display_width
        ((c.get_line i ColumnWidth.Dynamic).getD ""))).foldr Nat.max 0

/-! ## src/table.rs -/

/-- Rust struct `FancyTable`. -/
structure FancyTable where
  cells : List (List FancyCell)
  _added_column_first : Bool
  vertical_separator_styles : List BorderStyle
  horizontal_separator_styles : List BorderStyle
deriving DecidableEq

/-- Rust `FancyTable::default()` (derived: empty vectors, flag clear). -/
def FancyTable.default : FancyTable :=
  { cells := []
    _added_column_first := false
    vertical_separator_styles := []
    horizontal_separator_styles := [] }

/-- Rust `FancyTable::new`: converts the strings to cells, pads every row to
the maximum column count with default cells, and allocates
`max(columns + 1, 2)` vertical and `max(rows + 1, 2)` horizontal separator
styles, all default (`Single`). -/
def FancyTable.new (content : List (List String)) : FancyTable :=
  let cells : List (List FancyCell) :=
    content.map (fun row => row.map FancyCell.new)
  let columns : Nat := (cells.map List.length).foldr Nat.max 0
  let cells : List (List FancyCell) :=
    cells.map (fun row =>
      if row.length < columns then
        row ++ List.replicate (columns - row.length) FancyCell.default
      else row)
  let vertical_separators : Nat := Nat.max (columns + 1) 2
  let horizontal_separators : Nat := Nat.max (cells.length + 1) 2
  { vertical_separator_styles := List.replicate vertical_separators BorderStyle.default
    horizontal_separator_styles := List.replicate horizontal_separators BorderStyle.default
    _added_column_first := false
    cells := cells }

/-- Rust `FancyTable::add_rows`: appends `n` default rows (one fewer when
`_added_column_first` is set, clearing it).  The `rows -= 1` of the source is
a `usize` subtraction, so the call with `n = 0` and the flag set underflows —
a debug-build panic — modelled as `none`. -/
def FancyTable.add_rows (t : FancyTable) (n : Nat) : Option FancyTable :=
  let rowsFlag : Option (Nat × Bool) :=
    if t._added_column_first then
      if n = 0 then none else some (n - 1, false)
    else some (n, t._added_column_first)
  rowsFlag.map (fun rf =>
    let cols := (t.cells.headD []).length
    { t with
      _added_column_first := rf.2
      cells := t.cells ++ List.replicate rf.1 (List.replicate cols FancyCell.default)
      horizontal_separator_styles :=
        t.horizontal_separator_styles ++ List.replicate rf.1 BorderStyle.default })

/-- Rust `FancyTable::add_columns`: on an empty table first pushes one empty
row and sets `_added_column_first`; then appends `n` default cells to every
row and `n` default vertical separator styles. -/
def FancyTable.add_columns (t : FancyTable) (n : Nat) : FancyTable :=
  let cellsFlag : List (List FancyCell) × Bool :=
    if t.cells.length = 0 then (t.cells ++ [[]], true)
    else (t.cells, t._added_column_first)
  { t with
    _added_column_first := cellsFlag.2
    cells := cellsFlag.1.map (fun row => row ++ List.replicate n FancyCell.default)
    vertical_separator_styles :=
      t.vertical_separator_styles ++ List.replicate n BorderStyle.default }

/-- Rust `FancyTable::set`: grows rows then columns as needed, writes the
cell, and reports whether growth happened.  The source's two unchecked
indexings `self.cells[row_idx]` (and the final element assignment) are
modelled with `Option`: `none` is the out-of-bounds panic. -/
def FancyTable.set (t : FancyTable) (row_idx col_idx : Nat) (cell : FancyCell) :
    Option (FancyTable × Bool) :=
  match
    (if t.cells.length ≤ row_idx then
      (t.add_rows (row_idx - t.cells.length + 1)).map (fun t2 => (t2, true))
    else some (t, false)) with
  | Option.none => Option.none
  | some (t1, edited1) =>
    match t1.cells[row_idx]? with
    | Option.none => Option.none
    | some row =>
      let r2 : FancyTable × Bool :=
        if row.length ≤ col_idx then (t1.add_columns (col_idx - row.length + 1), true)
        else (t1, edited1)
      match r2.1.cells[row_idx]? with
      | Option.none => Option.none
      | some row2 =>
        if col_idx < row2.length then
          some ({ r2.1 with cells := r2.1.cells.set row_idx (row2.set col_idx cell) }, r2.2)
        else Option.none

/-- Rust `FancyTable::get`: the `?` operator on `self.cells.get(row_idx)`. -/
def FancyTable.get (t : FancyTable) (row_idx col_idx : Nat) : Option FancyCell :=
  match t.cells[row_idx]? with
  | Option.none => Option.none
  | some row => row[col_idx]?

/-- Rust `FancyTable::get_cell` (signed indices; negative means `none`). -/
def FancyTable.get_cell (t : FancyTable) (row col : Int) : Option FancyCell :=
  if row < 0 ∨ col < 0 then none
  else t.get row.toNat col.toNat

/-- Rust `FancyTable::get_row_count`. -/
def FancyTable.get_row_count (t : FancyTable) : Nat := t.cells.length

/-- Rust `FancyTable::get_column_count`: length of the first row, 0 when
there are no rows. -/
def FancyTable.get_column_count (t : FancyTable) : Nat :=
  if t.cells.length ≠ 0 then (t.cells.headD []).length else 0

/-- Rust `FancyTable::get_vertical_separator_style`. -/
def FancyTable.get_vertical_separator_style (t : FancyTable) (idx : Nat) :
    Option BorderStyle :=
  t.vertical_separator_styles[idx]?

/-- Rust `FancyTable::get_horizontal_separator_style`. -/
def FancyTable.get_horizontal_separator_style (t : FancyTable) (idx : Nat) :
    Option BorderStyle :=
  t.horizontal_separator_styles[idx]?

/-- Rust `FancyTable::set_vertical_separator_style`: a plain `Vec` index
assignment, which panics when `idx` is out of range — modelled as `none`. -/
def FancyTable.set_vertical_separator_style (t : FancyTable) (idx : Nat)
    (style : BorderStyle) : Option FancyTable :=
  if idx < t.vertical_separator_styles.length then
    some { t with vertical_separator_styles := t.vertical_separator_styles.set idx style }
  else none

/-- Rust `FancyTable::set_horizontal_separator_style`: as the vertical one. -/
def FancyTable.set_horizontal_separator_style (t : FancyTable) (idx : Nat)
    (style : BorderStyle) : Option FancyTable :=
  if idx < t.horizontal_separator_styles.length then
    some { t with horizontal_separator_styles := t.horizontal_separator_styles.set idx style }
  else none

/-- Rust `get_cell_border_symbols` (src/style/border.rs): the four border
symbols of a cell, in order top, left, right, bottom, merging each facing
pair of edge styles with `BorderLineStyle.max`. -/
def get_cell_border_symbols (table : FancyTable) (cell_row cell_col : Nat) :
    String × String × String × String :=
  let row : Int := cell_row
  let col : Int := cell_col
  let default_cell := FancyCell.default
  let cell_style := (table.get cell_row cell_col).getD default_cell |>.border_style
  let top_style := (table.get_cell (row - 1) col).getD default_cell |>.border_style
  let left_style := (table.get_cell row (col - 1)).getD default_cell |>.border_style
  let right_style := (table.get cell_row (cell_col + 1)).getD default_cell |>.border_style
  let bottom_style := (table.get (cell_row + 1) cell_col).getD default_cell |>.border_style
  let default_style := BorderStyle.default
  let top_hor_style := (table.get_horizontal_separator_style cell_row).getD default_style
  let bottom_hor_style := (table.get_horizontal_separator_style (cell_row + 1)).getD default_style
  let left_vert_style := (table.get_vertical_separator_style cell_col).getD default_style
  let right_vert_style := (table.get_vertical_separator_style (cell_col + 1)).getD default_style
  let top_symbol := get_horizontal_symbol (cell_style.top.max top_style.bottom) top_hor_style
  let bottom_symbol := get_horizontal_symbol (cell_style.bottom.max bottom_style.top) bottom_hor_style
  let left_symbol := get_vertical_symbol (cell_style.left.max left_style.right) left_vert_style
  let right_symbol := get_vertical_symbol (cell_style.right.max right_style.left) right_vert_style
  (top_symbol, left_symbol, right_symbol, bottom_symbol)

/-- One mutating call of the public growth/write interface. -/
inductive TableOp where
  | addRows (n : Nat)
  | addColumns (n : Nat)
  | setCell (row col : Nat) (cell : FancyCell)

/-- Applies one `TableOp`; `none` is a panic of the underlying call. -/
def applyOp (t : FancyTable) : TableOp → Option FancyTable
  | .addRows n => t.add_rows n
  | .addColumns n => some (t.add_columns n)
  | .setCell r c cell => (t.set r c cell).map (fun p => p.1)

/-- Applies a sequence of `TableOp`s left to right. -/
def applyOps (t : FancyTable) (ops : List TableOp) : Option FancyTable :=
  ops.foldl (fun acc op => acc.bind (fun t2 => applyOp t2 op)) (some t)

/-- Rectangularity: every row of the grid has the length of the first row
(hence all rows have identical length). -/
def FancyTable.rect (t : FancyTable) : Prop :=
  ∀ row ∈ t.cells, row.length = (t.cells.headD []).length

instance (t : FancyTable) : Decidable t.rect := by
  unfold FancyTable.rect
  infer_instance

/-! ## Helper lemmas -/

theorem le_foldr_max {l : List Nat} {x : Nat} (h : x ∈ l) : x ≤ l.foldr Nat.max 0 := by
  induction l with
  | nil => cases h
  | cons a as ih =>
    rcases List.mem_cons.mp h with h1 | h1
    · subst h1; exact Nat.le_max_left _ _
    · exact Nat.le_trans (ih h1) (Nat.le_max_right _ _)

theorem linesAux_ne_nil :
    ∀ (rem cur : List Char), rem ≠ [] ∨ cur ≠ [] → linesAux rem cur ≠ [] := by
  intro rem
  induction rem with
  | nil =>
    intro cur h
    have hcur : cur ≠ [] := h.resolve_left (fun h2 => h2 rfl)
    simp [linesAux, hcur]
  | cons c rest ih =>
    intro cur _
    by_cases hc : c = '\n'
    · simp [linesAux, hc]
    · simpa [linesAux, hc] using ih (c :: cur) (Or.inr (by simp))

theorem multiline_from_string_ne_nil {s : String} (h : s ≠ "") :
    multiline_from_string s ≠ [] := by
  have hd : s.data ≠ [] := by
    intro h2
    exact h (String.ext (by rw [h2]))
  unfold multiline_from_string
  simpa using linesAux_ne_nil s.data [] (Or.inl hd)

theorem textwrap_wrap_ne_nil (line : String) (width : Nat) :
    textwrap_wrap line width ≠ [] := by
  unfold textwrap_wrap
  cases h : splitWords line.data [] with
  | nil => simp
  | cons w ws => simp

theorem get_height_pos {c : FancyCell} (h : c.content ≠ []) (w : ColumnWidth) :
    1 ≤ c.get_height w := by
  rcases List.exists_cons_of_ne_nil h with ⟨l, ls, hc⟩
  cases w with
  | Dynamic => simp [FancyCell.get_height, hc]
  | Fixed w =>
    have : c.get_lines_with_fixed_width w ≠ [] := by
      unfold FancyCell.get_lines_with_fixed_width
      rw [hc]
      simp only [List.map_cons, List.flatten_cons]
      intro hnil
      rcases List.append_eq_nil.mp hnil with ⟨h1, _⟩
      exact textwrap_wrap_ne_nil l w h1
    simpa [FancyCell.get_height, Nat.succ_le, List.length_pos] using this

theorem rect_of_allLen {t : FancyTable} {k : Nat}
    (h : ∀ row ∈ t.cells, row.length = k) : t.rect := by
  intro row hrow
  cases hc : t.cells with
  | nil => rw [hc] at hrow; cases hrow
  | cons a as =>
    have ha : a ∈ t.cells := by rw [hc]; exact List.mem_cons_self _ _
    simp only [List.headD_cons]
    rw [h row hrow, h a ha]

theorem rect_allLen {t : FancyTable} (h : t.rect) :
    ∀ row ∈ t.cells, row.length = (t.cells.headD []).length := h

theorem rect_add_rows {t t2 : FancyTable} {n : Nat} (h : t.rect)
    (he : t.add_rows n = some t2) : t2.rect := by
  unfold FancyTable.add_rows at he
  have hcells : ∃ m, t2.cells =
      t.cells ++ List.replicate m (List.replicate (t.cells.headD []).length FancyCell.default) := by
    split at he
    · split at he
      · cases he
      · exact ⟨n - 1, by cases he; rfl⟩
    · exact ⟨n, by cases he; rfl⟩
  rcases hcells with ⟨m, hcells⟩
  cases hc : t.cells with
  | nil =>
    apply rect_of_allLen (k := 0)
    intro row hrow
    rw [hcells, hc] at hrow
    simp only [List.nil_append] at hrow
    have := List.eq_of_mem_replicate hrow
    simp [this]
  | cons a as =>
    apply rect_of_allLen (k := a.length)
    intro row hrow
    rw [hcells, hc] at hrow
    rcases List.mem_append.mp hrow with h1 | h1
    · have := h row (by rw [hc]; exact h1)
      rw [hc] at this
      simpa using this
    · have := List.eq_of_mem_replicate h1
      rw [this]
      simp [hc]

theorem add_columns_cells (t : FancyTable) (n : Nat) :
    (t.add_columns n).cells =
      (if t.cells.length = 0 then t.cells ++ [[]] else t.cells).map
        (fun row => row ++ List.replicate n FancyCell.default) := by
  unfold FancyTable.add_columns
  split <;> rfl

theorem rect_add_columns {t : FancyTable} (h : t.rect) (n : Nat) :
    (t.add_columns n).rect := by
  cases hc : t.cells with
  | nil =>
    apply rect_of_allLen (k := n)
    intro row hrow
    rw [add_columns_cells, hc] at hrow
    simp only [List.length_nil, if_pos rfl, List.nil_append, List.map_cons,
      List.map_nil] at hrow
    rcases List.mem_cons.mp hrow with h1 | h1
    · simp [h1]
    · cases h1
  | cons a as =>
    apply rect_of_allLen (k := a.length + n)
    intro row hrow
    rw [add_columns_cells, hc] at hrow
    simp only [List.length_cons, if_neg (Nat.succ_ne_zero as.length)] at hrow
    rcases List.mem_map.mp hrow with ⟨orig, horig, hrow2⟩
    have := h orig (by rw [hc]; exact horig)
    rw [hc] at this
    simp only [List.headD_cons] at this
    rw [← hrow2]
    simp [this]

theorem rect_write {t : FancyTable} {r : Nat} {row2 : List FancyCell}
    (h : t.rect) (hrow : t.cells[r]? = some row2) (c : Nat) (cell : FancyCell) :
    ({ t with cells := t.cells.set r (row2.set c cell) } : FancyTable).rect := by
  have hmem : row2 ∈ t.cells := List.getElem?_mem hrow
  apply rect_of_allLen (k := (t.cells.headD []).length)
  intro row hrowm
  simp only at hrowm
  rcases List.mem_or_eq_of_mem_set hrowm with h1 | h1
  · exact h row h1
  · rw [h1]
    simp [h row2 hmem]

theorem rect_set_aux {t1 t2 : FancyTable} {e1 e : Bool} {r c : Nat} {cell : FancyCell}
    (h : t1.rect)
    (he : (match t1.cells[r]? with
           | Option.none => Option.none
           | some row =>
             let r2 : FancyTable × Bool :=
               if row.length ≤ c then (t1.add_columns (c - row.length + 1), true)
               else (t1, e1)
             match r2.1.cells[r]? with
             | Option.none => Option.none
             | some row2 =>
               if c < row2.length then
                 some ({ r2.1 with cells := r2.1.cells.set r (row2.set c cell) }, r2.2)
               else Option.none) = some (t2, e)) : t2.rect := by
  cases hrow : t1.cells[r]? with
  | none => rw [hrow] at he; simp at he
  | some row =>
    rw [hrow] at he
    simp only [] at he
    by_cases h2 : row.length ≤ c
    · rw [if_pos h2] at he
      simp only [] at he
      cases hrow2 : (t1.add_columns (c - row.length + 1)).cells[r]? with
      | none => rw [hrow2] at he; simp at he
      | some row2 =>
        rw [hrow2] at he
        simp only [] at he
        by_cases h3 : c < row2.length
        · rw [if_pos h3] at he
          simp only [Option.some.injEq, Prod.mk.injEq] at he
          rw [← he.1]
          exact rect_write (rect_add_columns h _) hrow2 c cell
        · rw [if_neg h3] at he; simp at he
    · rw [if_neg h2] at he
      simp only [] at he
      rw [hrow] at he
      simp only [] at he
      by_cases h3 : c < row.length
      · rw [if_pos h3] at he
        simp only [Option.some.injEq, Prod.mk.injEq] at he
        rw [← he.1]
        exact rect_write h hrow c cell
      · rw [if_neg h3] at he; simp at he

theorem rect_set {t t2 : FancyTable} {e : Bool} {r c : Nat} {cell : FancyCell}
    (h : t.rect) (he : t.set r c cell = some (t2, e)) : t2.rect := by
  unfold FancyTable.set at he
  by_cases h1 : t.cells.length ≤ r
  · rw [if_pos h1] at he
    cases har : t.add_rows (r - t.cells.length + 1) with
    | none => rw [har] at he; simp at he
    | some t1 =>
      rw [har] at he
      simp only [Option.map_some'] at he
      exact rect_set_aux (rect_add_rows h har) he
  · rw [if_neg h1] at he
    exact rect_set_aux h he

theorem rect_new (content : List (List String)) : (FancyTable.new content).rect := by
  apply rect_of_allLen
    (k := ((content.map (fun r => r.map FancyCell.new)).map List.length).foldr Nat.max 0)
  intro row hrow
  unfold FancyTable.new at hrow
  simp only [] at hrow
  rcases List.mem_map.mp hrow with ⟨orig, horig, heq⟩
  have hle : orig.length ≤
      ((content.map (fun r => r.map FancyCell.new)).map List.length).foldr Nat.max 0 :=
    le_foldr_max (List.mem_map_of_mem List.length horig)
  by_cases hlt : orig.length <
      ((content.map (fun r => r.map FancyCell.new)).map List.length).foldr Nat.max 0
  · rw [if_pos hlt] at heq
    rw [← heq]
    simp only [List.length_append, List.length_replicate]
    omega
  · rw [if_neg hlt] at heq
    rw [← heq]
    omega

theorem applyOp_rect {t t2 : FancyTable} {op : TableOp}
    (h : t.rect) (he : applyOp t op = some t2) : t2.rect := by
  cases op with
  | addRows n => exact rect_add_rows h he
  | addColumns n =>
    simp only [applyOp, Option.some.injEq] at he
    rw [← he]
    exact rect_add_columns h n
  | setCell r c cell =>
    simp only [applyOp] at he
    cases hset : t.set r c cell with
    | none => rw [hset] at he; cases he
    | some p =>
      rw [hset] at he
      simp only [Option.map_some', Option.some.injEq] at he
      obtain ⟨p1, p2⟩ := p
      rw [← he]
      exact rect_set h hset

theorem foldl_bind_none (ops : List TableOp) :
    ops.foldl (fun acc op => acc.bind (fun t3 => applyOp t3 op)) Option.none
      = Option.none := by
  induction ops with
  | nil => rfl
  | cons op ops ih => simpa [List.foldl_cons] using ih

theorem applyOps_rect :
    ∀ (ops : List TableOp) (t t2 : FancyTable),
      t.rect → applyOps t ops = some t2 → t2.rect := by
  intro ops
  induction ops with
  | nil =>
    intro t t2 h he
    simp only [applyOps, List.foldl_nil, Option.some.injEq] at he
    rw [← he]; exact h
  | cons op ops ih =>
    intro t t2 h he
    simp only [applyOps, List.foldl_cons, Option.some_bind] at he
    cases hop : applyOp t op with
    | none => rw [hop] at he; rw [foldl_bind_none] at he; cases he
    | some t1 =>
      rw [hop] at he
      exact ih t1 t2 (applyOp_rect h hop) he

theorem add_rows_eq {t : FancyTable} (hf : t._added_column_first = false) (n : Nat) :
    t.add_rows n = some
      { t with
        cells := t.cells ++
          List.replicate n (List.replicate (t.cells.headD []).length FancyCell.default)
        horizontal_separator_styles :=
          t.horizontal_separator_styles ++ List.replicate n BorderStyle.default } := by
  unfold FancyTable.add_rows
  rw [hf]
  simp

theorem get_after_write {tw : FancyTable} {r c : Nat} {row2 : List FancyCell}
    (hrow : tw.cells[r]? = some row2) (hc : c < row2.length) (cell : FancyCell) :
    ({ tw with cells := tw.cells.set r (row2.set c cell) } : FancyTable).get r c
      = some cell := by
  have hr : r < tw.cells.length := by
    by_contra hcon
    rw [List.getElem?_eq_none_iff.mpr (Nat.le_of_not_lt hcon)] at hrow
    cases hrow
  unfold FancyTable.get
  rw [List.getElem?_set_self (by simpa using hr)]
  exact List.getElem?_set_self hc

theorem set_from_stage2 {t1 : FancyTable} {r c : Nat} {row : List FancyCell} {e1 : Bool}
    (hr : r < t1.cells.length) (hB : t1.cells[r]? = some row) (cell : FancyCell) :
    ∃ p : FancyTable × Bool,
      (match t1.cells[r]? with
       | Option.none => Option.none
       | some row =>
         match
           (if row.length ≤ c then (t1.add_columns (c - row.length + 1), true)
            else (t1, e1)).1.cells[r]? with
         | Option.none => Option.none
         | some row2 =>
           if c < row2.length then
             some
               ({ (if row.length ≤ c then (t1.add_columns (c - row.length + 1), true)
                   else (t1, e1)).1 with
                  cells :=
                    (if row.length ≤ c then (t1.add_columns (c - row.length + 1), true)
                     else (t1, e1)).1.cells.set r (row2.set c cell) },
                (if row.length ≤ c then (t1.add_columns (c - row.length + 1), true)
                 else (t1, e1)).2)
           else Option.none) = some p ∧ p.1.get r c = some cell := by
  rw [hB]
  simp only []
  by_cases h2 : row.length ≤ c
  · rw [if_pos h2]
    simp only []
    have hne : t1.cells.length ≠ 0 := by omega
    have hac := add_columns_cells t1 (c - row.length + 1)
    rw [if_neg hne] at hac
    have hD : (t1.add_columns (c - row.length + 1)).cells[r]? =
        some (row ++ List.replicate (c - row.length + 1) FancyCell.default) := by
      rw [hac, List.getElem?_map, hB]
      rfl
    rw [hD]
    simp only []
    have hlt : c < (row ++ List.replicate (c - row.length + 1) FancyCell.default).length := by
      simp only [List.length_append, List.length_replicate]
      omega
    rw [if_pos hlt]
    exact ⟨_, rfl, get_after_write hD hlt cell⟩
  · rw [if_neg h2]
    simp only []
    rw [hB]
    simp only []
    have hlt : c < row.length := by omega
    rw [if_pos hlt]
    exact ⟨_, rfl, get_after_write hB hlt cell⟩

theorem set_succeeds_of_flag_clear {t : FancyTable}
    (hf : t._added_column_first = false) (r c : Nat) (cell : FancyCell) :
    ∃ p : FancyTable × Bool, t.set r c cell = some p ∧ p.1.get r c = some cell := by
  unfold FancyTable.set
  by_cases h1 : t.cells.length ≤ r
  · rw [if_pos h1, add_rows_eq hf]
    simp only [Option.map_some']
    refine @set_from_stage2
      { t with
        cells := t.cells ++ List.replicate (r - t.cells.length + 1)
          (List.replicate (t.cells.headD []).length FancyCell.default)
        horizontal_separator_styles :=
          t.horizontal_separator_styles ++
            List.replicate (r - t.cells.length + 1) BorderStyle.default }
      r c (List.replicate (t.cells.headD []).length FancyCell.default) true ?_ ?_ cell
    · simp only [List.length_append, List.length_replicate]
      omega
    · simp only []
      rw [List.getElem?_append_right h1]
      exact List.getElem?_replicate_of_lt (by omega)
  · rw [if_neg h1]
    simp only []
    have hrlt : r < t.cells.length := Nat.lt_of_not_le h1
    obtain ⟨row, hB⟩ : ∃ row, t.cells[r]? = some row := by
      cases hrow : t.cells[r]? with
      | none =>
        rw [List.getElem?_eq_none_iff] at hrow
        omega
      | some row => exact ⟨row, rfl⟩
    exact set_from_stage2 hrlt hB cell

/-! ## Claims -/

/-- Claim C1 (refuted by the code, which contradicts its own `left t (├)`
comment): at the left T-junction, the weight pair does not select among four
variants of the left-T shape — `(Single, Double)` yields `╨` (an up-pointing
T, a shape of the other axis pattern) and `(Double, Double)` yields `╟` (the
vertical-double/horizontal-single variant) instead of the fully double `╠`. -/
theorem left_t_junction_weight_glyphs :
    get_center_symbol true false true true BorderStyle.Single BorderStyle.Double = "╨" ∧
    get_center_symbol true false true true BorderStyle.Double BorderStyle.Double = "╟" :=
  ⟨rfl, rfl⟩

/-- Claim C2: the merge of facing edge styles, `BorderLineStyle.max` under the
discriminant order Solid < Dashed < Dotted < None, is commutative and
associative (so merging three declarations in any order agrees), and merging
any style with `None` yields `None`. -/
theorem merge_edge_comm_assoc_absorb :
    ∀ a b c : BorderLineStyle,
      a.max b = b.max a ∧
      (a.max b).max c = a.max (b.max c) ∧
      a.max BorderLineStyle.None = BorderLineStyle.None := by
  intro a b c
  cases a <;> cases b <;> cases c <;> exact ⟨rfl, rfl, rfl⟩

/-- Claim C3: tables built by `new` are rectangular, and every successful
sequence of `add_rows`, `add_columns` and `set` calls starting from a
rectangular table leaves the table rectangular after each call. -/
theorem rectangularity_invariant :
    (∀ content : List (List String), (FancyTable.new content).rect) ∧
    ∀ (ops : List TableOp) (t t2 : FancyTable),
      t.rect → applyOps t ops = some t2 → t2.rect :=
  ⟨rect_new, applyOps_rect⟩

/-- Witness for C3 at a concrete run: growing the empty table by two columns
and then two rows yields a rectangular 2×2 table. -/
theorem rectangularity_invariant_witness :
    ({ cells := [[FancyCell.default, FancyCell.default],
                 [FancyCell.default, FancyCell.default]]
       _added_column_first := false
       vertical_separator_styles := [BorderStyle.Single, BorderStyle.Single]
       horizontal_separator_styles := [BorderStyle.Single] } : FancyTable).rect :=
  rectangularity_invariant.2 [TableOp.addColumns 2, TableOp.addRows 2]
    FancyTable.default _ (by decide) (by decide)

/-- Claim C4: on the empty table, `add_columns 2` then `add_rows 2` produces
exactly a 2×2 grid, the `add_columns` call having synthesized one row that
the first `add_rows` call compensates for. -/
theorem empty_grid_add_columns_then_rows_geometry :
    ((FancyTable.default.add_columns 2).add_rows 2).map
        (fun t => (t.get_row_count, t.get_column_count)) = some (2, 2) ∧
    (FancyTable.default.add_columns 2).get_row_count = 1 := by decide

/-- Counterexample to C5 as stated: for the 1×1 table the claim asks for
`c - 1 = 0` vertical and `r - 1 = 0` horizontal separator tracks, but `new`
allocates 2 of each. -/
theorem new_singleton_track_counts_counterexample :
    (FancyTable.new [["a"]]).vertical_separator_styles.length = 2 ∧
    (FancyTable.new [["a"]]).horizontal_separator_styles.length = 2 ∧
    (FancyTable.new [["a"]]).vertical_separator_styles.length ≠ 0 ∧
    (FancyTable.new [["a"]]).horizontal_separator_styles.length ≠ 0 := by decide

/-- Claim C5 as amended: for content with `r ≥ 1` rows and maximum row length
`c ≥ 1`, `FancyTable.new` allocates exactly `c + 1` vertical and `r + 1`
horizontal separator tracks (separators plus the two borders), all defaulted
to `Single`. -/
theorem new_separator_track_counts :
    ∀ content : List (List String),
      1 ≤ content.length →
      1 ≤ (content.map List.length).foldr Nat.max 0 →
      (FancyTable.new content).vertical_separator_styles.length
          = (content.map List.length).foldr Nat.max 0 + 1 ∧
      (FancyTable.new content).horizontal_separator_styles.length
          = content.length + 1 ∧
      (∀ s ∈ (FancyTable.new content).vertical_separator_styles,
        s = BorderStyle.Single) ∧
      (∀ s ∈ (FancyTable.new content).horizontal_separator_styles,
        s = BorderStyle.Single) := by
  intro content hr hc
  have hcols : (content.map (fun r => r.map FancyCell.new)).map List.length
      = content.map List.length := by
    rw [List.map_map]
    apply List.map_congr_left
    intro a _
    simp
  constructor
  · unfold FancyTable.new
    simp only [List.length_replicate, hcols]
    show max ((content.map List.length).foldr Nat.max 0 + 1) 2 = _
    omega
  constructor
  · unfold FancyTable.new
    simp only [List.length_replicate, List.length_map]
    show max (content.length + 1) 2 = _
    omega
  constructor
  · intro s hs
    unfold FancyTable.new at hs
    simp only [] at hs
    exact List.eq_of_mem_replicate hs
  · intro s hs
    unfold FancyTable.new at hs
    simp only [] at hs
    exact List.eq_of_mem_replicate hs

/-- Witness for C5 (amended) at the 2×1 content block. -/
theorem new_separator_track_counts_witness :
    (FancyTable.new [["a"], ["b"]]).vertical_separator_styles.length = 2 ∧
    (FancyTable.new [["a"], ["b"]]).horizontal_separator_styles.length = 3 :=
  ⟨(new_separator_track_counts [["a"], ["b"]] (by decide) (by decide)).1,
   (new_separator_track_counts [["a"], ["b"]] (by decide) (by decide)).2.1⟩

/-- Counterexample to C6 as stated: the separator-style setters are
out-of-range writes at the public interface that fail (index panic, modelled
`none`) instead of auto-growing. -/
theorem separator_setter_out_of_range_fails :
    FancyTable.default.set_vertical_separator_style 0 BorderStyle.Single = Option.none ∧
    FancyTable.default.set_horizontal_separator_style 0 BorderStyle.Single = Option.none := by
  decide

/-- Claim C6 as amended: out-of-range reads (`get`, `get_cell` and the
separator-style getters) return `none` rather than failing; an out-of-range
`set` auto-grows and writes the cell whenever the `_added_column_first` flag
is clear; the separator-style setters, however, fail on out-of-range
indices. -/
theorem out_of_range_reads_and_writes :
    (∀ (t : FancyTable) (r c : Nat), t.cells.length ≤ r → t.get r c = Option.none) ∧
    (∀ (t : FancyTable) (r c : Nat) (row : List FancyCell),
      t.cells[r]? = some row → row.length ≤ c → t.get r c = Option.none) ∧
    (∀ (t : FancyTable) (r c : Int), r < 0 ∨ c < 0 → t.get_cell r c = Option.none) ∧
    (∀ (t : FancyTable) (i : Nat), t.vertical_separator_styles.length ≤ i →
      t.get_vertical_separator_style i = Option.none) ∧
    (∀ (t : FancyTable) (i : Nat), t.horizontal_separator_styles.length ≤ i →
      t.get_horizontal_separator_style i = Option.none) ∧
    (∀ (t : FancyTable) (i : Nat) (s : BorderStyle),
      t.vertical_separator_styles.length ≤ i →
      t.set_vertical_separator_style i s = Option.none) ∧
    (∀ (t : FancyTable) (i : Nat) (s : BorderStyle),
      t.horizontal_separator_styles.length ≤ i →
      t.set_horizontal_separator_style i s = Option.none) ∧
    (∀ (t : FancyTable) (r c : Nat) (cell : FancyCell),
      t._added_column_first = false →
      ∃ p : FancyTable × Bool, t.set r c cell = some p ∧ p.1.get r c = some cell) := by
  refine ⟨?_, ?_, ?_, ?_, ?_, ?_, ?_, ?_⟩
  · intro t r c h
    unfold FancyTable.get
    rw [List.getElem?_eq_none_iff.mpr h]
  · intro t r c row h1 h2
    unfold FancyTable.get
    rw [h1]
    exact List.getElem?_eq_none_iff.mpr h2
  · intro t r c h
    unfold FancyTable.get_cell
    rw [if_pos h]
  · intro t i h
    exact List.getElem?_eq_none_iff.mpr h
  · intro t i h
    exact List.getElem?_eq_none_iff.mpr h
  · intro t i s h
    unfold FancyTable.set_vertical_separator_style
    rw [if_neg (by omega)]
  · intro t i s h
    unfold FancyTable.set_horizontal_separator_style
    rw [if_neg (by omega)]
  · intro t r c cell hf
    exact set_succeeds_of_flag_clear hf r c cell

/-- Witness for C6 (amended) at concrete out-of-range indices on the empty
table. -/
theorem out_of_range_reads_and_writes_witness :
    FancyTable.default.get 0 0 = Option.none ∧
    FancyTable.default.get_cell (-1) 0 = Option.none ∧
    FancyTable.default.get_vertical_separator_style 0 = Option.none ∧
    FancyTable.default.set_horizontal_separator_style 0 BorderStyle.Double
      = Option.none :=
  ⟨out_of_range_reads_and_writes.1 FancyTable.default 0 0 (by decide),
   out_of_range_reads_and_writes.2.2.1 FancyTable.default (-1) 0 (by decide),
   out_of_range_reads_and_writes.2.2.2.1 FancyTable.default 0 (by decide),
   out_of_range_reads_and_writes.2.2.2.2.2.2.1 FancyTable.default 0
     BorderStyle.Double (by decide)⟩

/-- Claim C8: under `Fixed w` the computed cell width is exactly `w + 2` for
every cell, and every wrapped display line is padded with exactly one space
column per side, whatever the cell's own padding. -/
theorem fixed_width_and_forced_padding :
    ∀ (c : FancyCell) (w : Nat),
      c.get_width (ColumnWidth.Fixed w) = w + 2 ∧
      ∀ (i : Nat) (line : String),
        (c.get_lines_with_fixed_width w)[i]? = some line →
        c.get_line i (ColumnWidth.Fixed w) = some (" " ++ line ++ " ") := by
  intro c w
  refine ⟨rfl, ?_⟩
  intro i line h
  unfold FancyCell.get_line
  simp only []
  rw [h]
  rfl

/-- Witness for C8 at a concrete cell with padding 1 and fixed width 4. -/
theorem fixed_width_and_forced_padding_witness :
    (FancyCell.new "hi").get_width (ColumnWidth.Fixed 4) = 6 ∧
    (FancyCell.new "hi").get_line 0 (ColumnWidth.Fixed 4) = some " hi " :=
  ⟨(fixed_width_and_forced_padding (FancyCell.new "hi") 4).1,
   (fixed_width_and_forced_padding (FancyCell.new "hi") 4).2 0 "hi" (by decide)⟩

/-- Counterexample to C9 as stated: the empty input string yields an empty
content and height 0 (Rust `str::lines` produces no lines for `""`). -/
theorem empty_string_empty_content :
    (FancyCell.new "").content = [] ∧
    (FancyCell.new "").get_height ColumnWidth.Dynamic = 0 ∧
    (FancyCell.default.set_content "").content = [] := by decide

/-- Claim C9 as amended: for every input string other than the empty string,
`new` and `set_content` produce a content with at least one line, and the
height is at least 1 in every width mode. -/
theorem nonempty_string_content_height :
    ∀ (s : String), s ≠ "" → ∀ (c : FancyCell) (w : ColumnWidth),
      1 ≤ (FancyCell.new s).content.length ∧
      1 ≤ (c.set_content s).content.length ∧
      1 ≤ (FancyCell.new s).get_height w ∧
      1 ≤ (c.set_content s).get_height w := by
  intro s hs c w
  have h1 : multiline_from_string s ≠ [] := multiline_from_string_ne_nil hs
  have hlen : 1 ≤ (multiline_from_string s).length := by
    simpa [Nat.succ_le, List.length_pos] using h1
  exact ⟨hlen, hlen, get_height_pos h1 w, get_height_pos h1 w⟩

/-- Witness for C9 (amended) at the one-character string. -/
theorem nonempty_string_content_height_witness :
    1 ≤ (FancyCell.new "x").content.length ∧
    1 ≤ (FancyCell.new "x").get_height ColumnWidth.Dynamic :=
  ⟨(nonempty_string_content_height "x" (by decide) FancyCell.default
      ColumnWidth.Dynamic).1,
   (nonempty_string_content_height "x" (by decide) FancyCell.default
      ColumnWidth.Dynamic).2.2.1⟩

/-- Claim C10: after `add_columns n` (`n ≥ 1`) on the empty table has set
`_added_column_first`, `add_rows 0` is not a no-op: the compensation
subtracts 1 from 0 on an unsigned count, underflowing (modelled `none`, a
debug-build panic) instead of leaving the grid unchanged. -/
theorem add_rows_zero_after_add_columns_underflows :
    ∀ n : Nat, 1 ≤ n →
      (FancyTable.default.add_columns n).add_rows 0 = Option.none := by
  intro n _
  rfl

/-- Witness for C10 at `n = 1`. -/
theorem add_rows_zero_after_add_columns_underflows_witness :
    (FancyTable.default.add_columns 1).add_rows 0 = Option.none :=
  add_rows_zero_after_add_columns_underflows 1 (by decide)

end Fancytable
